import Mathlib

/-!
Shallow embedding of `hf_paper_agent.py` (HuggingFace Papers Agent) and
verification of its specification claims.

Modelling conventions:
- Python strings are Lean `String` (operated on through `String.data : List Char`
  where character-level processing is needed).  The regex classes `\w` and
  `\s` are Unicode-aware in Python: on the ASCII range they are fixed and
  embedded exactly, and their non-ASCII part is carried as an abstract table
  (`PyTables`) rather than reproduced.  The embedding of `str.lower` covers
  its ASCII fragment.
- The JSON ledger object `papers` is an association list `List (String × Entry)`
  with Python-dict semantics: updating an existing key replaces it in place,
  a new key is appended (insertion order preserved).
- Timestamps (`datetime.now()`) are nondeterministic wall-clock data and are
  abstracted out of the ledger entries; entries keep status, metadata and error.
- Network, filesystem and library availability are an explicit environment
  (`Env`, `PdfFile`, `FileState`); exceptions are `Except` values.
- `time.sleep(2)` calls are counted in a `sleeps` field of the run statistics
  (each counted call sleeps the fixed constant 2 seconds).
-/

/-! ### Character classes and string helpers (regex fragments used by the code) -/

/-- The Unicode tables behind the regex classes `\w` and `\s`: which
non-ASCII characters Python counts as word characters and as whitespace.
On the ASCII range both classes are fixed, so the embedding hard-codes
them there and keeps only their non-ASCII part abstract instead of
reproducing the Unicode tables. -/
structure PyTables where
  word : Char → Bool
  space : Char → Bool

/-- Whether a character lies in the ASCII range. -/
def isASCIIChar (c : Char) : Bool := c.toNat ≤ 127

/-- The regex class `\w` used by the first sanitizing re.sub: on ASCII,
alphanumerics plus underscore; beyond ASCII, whatever the Unicode word
table says. -/
def pyIsWordChar (T : PyTables) (c : Char) : Bool :=
  if isASCIIChar c then c.isAlphanum || c == '_' else T.word c

/-- The regex class `\s`: on ASCII the six whitespace characters (space,
tab, newline, carriage return, vertical tab, form feed); beyond ASCII,
whatever the Unicode space table says. -/
def pyIsSpaceChar (T : PyTables) (c : Char) : Bool :=
  if isASCIIChar c then
    c == ' ' || c == '\t' || c == '\n' || c == '\r' || c == '\x0b' || c == '\x0c'
  else T.space c

/-- Embedding of the first sanitizing re.sub (pattern: not word, not
whitespace, not hyphen; replacement: empty): keep word characters,
whitespace and hyphens, drop everything else. -/
def stripNonWord (T : PyTables) (s : List Char) : List Char :=
  s.filter (fun c => pyIsWordChar T c || pyIsSpaceChar T c || c == '-')

/-- Worker for `collapseWs`: the boolean records whether the previous
character was whitespace (so a run emits only one hyphen). -/
def collapseWsAux (T : PyTables) : Bool → List Char → List Char
  | _, [] => []
  | inRun, c :: t =>
    if pyIsSpaceChar T c then
      (if inRun then [] else ['-']) ++ collapseWsAux T true t
    else
      c :: collapseWsAux T false t

/-- Embedding of the second sanitizing re.sub (pattern: one or more
whitespace characters; replacement: hyphen): every maximal whitespace run
is replaced by a single hyphen. -/
def collapseWs (T : PyTables) (s : List Char) : List Char := collapseWsAux T false s

/-- Embedding of the Python substring test `pat in s`. -/
def listContainsSub (s pat : List Char) : Bool :=
  match s with
  | [] => pat.isEmpty
  | _ :: t => pat.isPrefixOf s || listContainsSub t pat

/-- Substring test on `String`. -/
def strContainsSub (s pat : String) : Bool := listContainsSub s.data pat.data

/-- Fuel-indexed worker for `replaceAll`; the fuel is an upper bound on the
length of the text, so recursion is structural (and kernel-reducible). -/
def replaceAllFuel : Nat → List Char → List Char → List Char → List Char
  | 0, s, _, _ => s
  | _ + 1, [], _, _ => []
  | fuel + 1, c :: t, pat, rep =>
    if pat ≠ [] ∧ pat.isPrefixOf (c :: t) = true then
      rep ++ replaceAllFuel fuel ((c :: t).drop pat.length) pat rep
    else
      c :: replaceAllFuel fuel t pat rep

/-- Embedding of Python `s.replace(pat, rep)` (left-to-right, non-overlapping;
the empty-pattern corner case is never exercised by the code). -/
def replaceAll (s pat rep : List Char) : List Char :=
  replaceAllFuel s.length s pat rep

/-- Embedding of Python `s.lower()` (ASCII fragment): lowercase every
character. -/
def pyLower (s : String) : String := String.mk (s.data.map Char.toLower)

/-! ### Filename sanitization (`PaperManager._process_paper`, lines 522-524)

The code removes punctuation with the first re.sub, then slices the result
to its first 100 characters, then collapses whitespace runs with the
second re.sub: punctuation removal first, then truncation, then whitespace
collapsing. -/

/-- Filename stem derivation as the code performs it. -/
def safe_title (T : PyTables) (title : String) : String :=
  String.mk (collapseWs T ((stripNonWord T title.data).take 100))

/-- Modelled from the spec wording of claim C4: truncate the title to its
first 100 source characters BEFORE any sanitization, then remove the
punctuation and collapse whitespace.  Used only to compare against the
behaviour of `safe_title`. -/
def spec_safe_title (T : PyTables) (title : String) : String :=
  String.mk (collapseWs T (stripNonWord T (title.data.take 100)))

/-! ### Ledger (`PaperTracker`) -/

/-- Metadata blob stored by `mark_complete` (title, output paths, source
link); paths are represented relative to the base directory as in the code. -/
structure Metadata where
  title : String
  pdf_path : String
  md_path : String
  url : String
deriving DecidableEq, Repr

/-- One ledger entry: status `complete` with metadata, or status `failed`
with an error string.  Timestamps are abstracted away. -/
inductive Entry where
  | complete (metadata : Metadata)
  | failed (error : String)
deriving DecidableEq, Repr

/-- `self.data["papers"]` together with its on-disk copy (the tracker file).
`_save` copies the in-memory map to disk. -/
structure Tracker where
  data : List (String × Entry)
  disk : List (String × Entry)
deriving DecidableEq, Repr

/-- Lookup in the papers map (first matching key). -/
def getEntry : List (String × Entry) → String → Option Entry
  | [], _ => none
  | q :: t, key => if q.1 = key then some q.2 else getEntry t key

/-- Python-dict assignment `d[key] = v`: replace in place when the key is
present, append otherwise. -/
def setKey (l : List (String × Entry)) (key : String) (v : Entry) :
    List (String × Entry) :=
  if l.any (fun q => q.1 = key) then
    l.map (fun q => if q.1 = key then (key, v) else q)
  else
    l ++ [(key, v)]

/-- The ledger key: the month, a slash and the paper id concatenated, as
built by the f-string in the tracker methods. -/
def trackerKey (m pid : String) : String := m ++ "/" ++ pid

/-- `PaperTracker.is_downloaded`: the key is present and its status is
`complete`. -/
def is_downloaded (tr : Tracker) (pid m : String) : Bool :=
  match getEntry tr.data (trackerKey m pid) with
  | some (.complete _) => true
  | _ => false

/-- `PaperTracker.mark_complete`: overwrite the entry for the key and save
the full ledger to disk. -/
def mark_complete (tr : Tracker) (pid m : String) (md : Metadata) : Tracker :=
  let d := setKey tr.data (trackerKey m pid) (.complete md)
  ⟨d, d⟩

/-- `PaperTracker.mark_failed`: overwrite the entry for the key with a
failure record and save the full ledger to disk. -/
def mark_failed (tr : Tracker) (pid m : String) (err : String) : Tracker :=
  let d := setKey tr.data (trackerKey m pid) (.failed err)
  ⟨d, d⟩

/-- State of the tracker file on disk for `PaperTracker._load`. -/
inductive FileState where
  | absent
  | malformed (msg : String)
  | valid (papers : List (String × Entry))
deriving DecidableEq

/-- `PaperTracker._load`: a missing file yields the empty papers map; a
malformed file makes `json.load` raise (modelled as `Except.error`). -/
def tracker_load : FileState → Except String (List (String × Entry))
  | .absent => .ok []
  | .malformed msg => .error msg
  | .valid d => .ok d

/-! ### Detail resolution (`HFPaperScraper.get_paper_details`) -/

/-- Abstraction of one fetched paper page: the hrefs matching the regex
`arxiv.org/pdf|arxiv.org/abs` in document order, the hrefs matching
`github.com`, the abstract element text, and whether fetching raised. -/
structure PaperPage where
  arxivLinks : List String
  githubLinks : List String
  abstractText : Option String
  fetchError : Bool
deriving DecidableEq

/-- Result dictionary of `get_paper_details`.  An exception during fetching
is caught and returns the empty dictionary, modelled as all fields `none`. -/
structure Details where
  pdf_url : Option String
  arxiv_url : Option String
  github_url : Option String
  abstract : Option String
deriving DecidableEq

/-- `HFPaperScraper.get_paper_details`: the first arXiv link becomes
`arxiv_url`; if it contains `/abs/` the `pdf_url` is that link with `/abs/`
replaced by `/pdf/` and `.pdf` appended, otherwise the link itself. -/
def get_paper_details (page : PaperPage) : Details :=
  if page.fetchError then ⟨none, none, none, none⟩
  else
    let arxivPair : Option String × Option String :=
      match page.arxivLinks with
      | [] => (none, none)
      | l :: _ =>
        (some l,
         some (if strContainsSub l "/abs/" then
                 String.mk (replaceAll l.data "/abs/".data "/pdf/".data) ++ ".pdf"
               else l))
    { pdf_url := arxivPair.2
      arxiv_url := arxivPair.1
      github_url := page.githubLinks.head?
      abstract := page.abstractText }

/-! ### Text extraction (`PaperDownloader.extract_text_from_pdf`) -/

/-- Environment of one extraction attempt: the library decodes the pages,
the library is missing (`ImportError`), or decoding raises. -/
inductive PdfFile where
  | pages (texts : List String)
  | noLib
  | raiseErr (msg : String)
deriving DecidableEq

/-- Body of `extract_text_from_pdf` inside the outer `try`: the inner
handler already converts `ImportError` to its sentinel; a decoding error
propagates. -/
def extract_body : PdfFile → Except String String
  | .pages ts => .ok (String.intercalate "\n\n" ts)
  | .noLib => .ok "[PDF text extraction requires PyPDF2 library]"
  | .raiseErr e => .error e

/-- `PaperDownloader.extract_text_from_pdf`: the outer handler turns any
propagated exception into the error sentinel, so the function always
returns a string. -/
def extract_text_from_pdf (f : PdfFile) : String :=
  match extract_body f with
  | .ok s => s
  | .error _ => "[Error extracting text from PDF]"

/-! ### Analyzer (`PaperAnalyzer`) -/

/-- Analysis result dictionary.  The AI path has no `relevance` key, hence
the `Option`. -/
structure Analysis where
  summary : String
  relevance : Option (List (String × String))
  ai_generated : Bool
deriving DecidableEq

/-- `Config.CATEGORIES` (ordered key/description pairs). -/
def CATEGORIES : List (String × String) :=
  [("sales", "Relevant for sales teams, sales automation, lead scoring, pipeline management"),
   ("demand_generation", "Relevant for marketing, demand gen, lead generation, campaign optimization"),
   ("customer_success", "Relevant for CS teams, retention, expansion, health scoring, usage analytics"),
   ("customer_support", "Relevant for support teams, ticket automation, chatbots, help desk optimization"),
   ("solution_partners", "Relevant for partner enablement, integration opportunities, platform extensions")]

/-- The fixed keyword list of `_analyze_without_ai` (identical for every
category). -/
def fallbackKeywords : List String :=
  ["sales", "marketing", "customer", "support", "automation", "analytics"]

/-- The keyword-overlap score of `_analyze_without_ai`: the number of fixed
keywords occurring in the lowercased `title + " " + abstract` (after the
falsy-value substitutions the code performs). -/
def fallbackScore (title abstract : String) : Nat :=
  let t := if title = "" then "Untitled" else title
  let a := if abstract = "" then "No abstract available" else abstract
  let textLower := pyLower (t ++ " " ++ a)
  fallbackKeywords.countP (fun kw => strContainsSub textLower kw)

/-- `PaperAnalyzer._analyze_without_ai`: per category the score is bucketed
into Medium (score strictly above 2) or Low, and a templated summary echoes
the abstract with the no-AI notice. -/
def analyze_without_ai (title abstract : String) : Analysis :=
  let a := if abstract = "" then "No abstract available" else abstract
  { summary := "# Summary\n\n" ++ a ++
      "\n\n[Note: Install anthropic library and set ANTHROPIC_API_KEY for AI-generated summaries]"
    relevance := some (CATEGORIES.map (fun c =>
      (c.1, if fallbackScore title abstract > 2 then "Medium" else "Low")))
    ai_generated := false }

/-- `PaperAnalyzer.analyze_paper`: dispatch on the credential.  `aiSummary`
abstracts the whole `_analyze_with_ai` attempt: `some s` is a successful
model response, `none` is any failure of the AI path, which falls back to
the keyword method. -/
def analyze_paper (apiKey : Option String) (aiSummary : Option String)
    (title abstract : String) : Analysis :=
  match apiKey with
  | none => analyze_without_ai title abstract
  | some _ =>
    match aiSummary with
    | some s => { summary := s, relevance := none, ai_generated := true }
    | none => analyze_without_ai title abstract

/-! ### Orchestrator (`PaperManager`) -/

/-- One item produced by the lister (`get_monthly_papers`). -/
structure Paper where
  title : String
  url : String
  paper_id : String
deriving DecidableEq, Repr

/-- The deterministic external world of one run: detail pages keyed by
paper url, download success keyed by pdf url, extraction environment keyed
by pdf path, an optional uncaught exception per paper id (modelling any
exception escaping the per-item pipeline), the analyzer environment, and
the Unicode regex tables of the interpreter. -/
structure Env where
  tables : PyTables
  page : String → PaperPage
  download : String → Bool
  pdfFile : String → PdfFile
  exn : String → Option String
  apiKey : Option String
  aiSummary : Option String

/-- The metadata recorded by `_process_paper` on success. -/
def metadataOf (T : PyTables) (m : String) (p : Paper) : Metadata :=
  { title := p.title
    pdf_path := "papers/" ++ m ++ "/" ++ safe_title T p.title ++ ".pdf"
    md_path := "papers/" ++ m ++ "/" ++ safe_title T p.title ++ ".md"
    url := p.url }

/-- `PaperManager._process_paper`.  An uncaught exception is the `error`
case (handled by the caller); otherwise the pipeline resolves details,
requires a pdf url, downloads, extracts, analyzes, and records the outcome
in the tracker, returning the success flag. -/
def _process_paper (env : Env) (m : String) (p : Paper) (tr : Tracker) :
    Except String (Tracker × Bool) :=
  match env.exn p.paper_id with
  | some e => .error e
  | none =>
    let md := metadataOf env.tables m p
    let details := get_paper_details (env.page p.url)
    match details.pdf_url with
    | none => .ok (mark_failed tr p.paper_id m "No PDF URL found", false)
    | some purl =>
      if env.download purl then
        let fullText := extract_text_from_pdf (env.pdfFile md.pdf_path)
        let _analysis := analyze_paper env.apiKey env.aiSummary p.title
          (details.abstract.getD "")
        let _ := fullText
        .ok (mark_complete tr p.paper_id m md, true)
      else
        .ok (mark_failed tr p.paper_id m "PDF download failed", false)

/-- Counters of one `process_month` run.  `sleeps` counts the executed
`time.sleep(2)` calls (each sleeping the fixed constant 2 seconds). -/
structure RunStats where
  processed : Nat
  skipped : Nat
  failed : Nat
  sleeps : Nat
deriving DecidableEq, Repr

/-- The all-zero counters at the start of a run. -/
def zeroStats : RunStats := ⟨0, 0, 0, 0⟩

/-- One iteration of the `process_month` loop: skip when not forced and the
tracker already has a complete entry; otherwise run `_process_paper`,
counting and sleeping inside the `try`, or record the uncaught exception as
a failure (without sleeping) in the `except` branch. -/
def processItem (env : Env) (m : String) (force : Bool)
    (st : Tracker × RunStats) (p : Paper) : Tracker × RunStats :=
  let tr := st.1
  let s := st.2
  if !force && is_downloaded tr p.paper_id m then
    (tr, { s with skipped := s.skipped + 1 })
  else
    match _process_paper env m p tr with
    | .ok (tr', true) =>
      (tr', { s with processed := s.processed + 1, sleeps := s.sleeps + 1 })
    | .ok (tr', false) =>
      (tr', { s with failed := s.failed + 1, sleeps := s.sleeps + 1 })
    | .error e =>
      (mark_failed tr p.paper_id m e, { s with failed := s.failed + 1 })

/-- `PaperManager.process_month` restricted to its per-item loop: fold the
per-item step over the fetched list with fresh counters.  (Directory
creation and the index rebuild after the loop have no effect on the ledger
or the counters and are not modelled.) -/
def process_month (env : Env) (m : String) (force : Bool)
    (papers : List Paper) (tr : Tracker) : Tracker × RunStats :=
  papers.foldl (processItem env m force) (tr, zeroStats)

/-- Result of one top-level run (`main`). -/
inductive RunOutcome where
  | fatal (msg : String)
  | completed (tr : Tracker) (s : RunStats)
deriving DecidableEq

/-- `main` after argument parsing: constructing `PaperManager` loads the
tracker file; an exception there is caught by the outer handler (`fatal`)
before any item processing, otherwise `process_month` runs. -/
def run_agent (fs : FileState) (env : Env) (m : String) (force : Bool)
    (papers : List Paper) : RunOutcome :=
  match tracker_load fs with
  | .error e => .fatal e
  | .ok d =>
    let r := process_month env m force papers ⟨d, d⟩
    .completed r.1 r.2

/-! ### Derived notions used in the statements and proofs -/

/-- The four possible outcomes of the per-item pipeline in a fixed
environment. -/
inductive Outcome where
  | exn (e : String)
  | noPdf
  | dlFail
  | success
deriving DecidableEq

/-- The outcome `_process_paper` reaches for a paper, read off the
environment. -/
def outcomeOf (env : Env) (p : Paper) : Outcome :=
  match env.exn p.paper_id with
  | some e => .exn e
  | none =>
    match (get_paper_details (env.page p.url)).pdf_url with
    | none => .noPdf
    | some purl => if env.download purl then .success else .dlFail

/-- The ledger entry a non-skipped item ends up with. -/
def resultEntry (env : Env) (m : String) (p : Paper) : Entry :=
  match outcomeOf env p with
  | .exn e => .failed e
  | .noPdf => .failed "No PDF URL found"
  | .dlFail => .failed "PDF download failed"
  | .success => .complete (metadataOf env.tables m p)

/-- The ledger key of a paper in a month. -/
def keyOf (m : String) (p : Paper) : String := trackerKey m p.paper_id

/-- The papers map has pairwise distinct keys. -/
def NodupKeys (d : List (String × Entry)) : Prop := (d.map Prod.fst).Nodup

/-- Whether an optional entry is a complete entry. -/
def isCompleteOpt : Option Entry → Bool
  | some (.complete _) => true
  | _ => false

/-- A ledger state is settled for a paper when its key holds either a
complete entry or exactly the failure entry the environment would produce
again. -/
def goodEntryD (env : Env) (m : String) (d : List (String × Entry))
    (p : Paper) : Prop :=
  match getEntry d (keyOf m p) with
  | some (.complete _) => True
  | some (.failed r) => resultEntry env m p = .failed r
  | none => False

/-- The number of listed papers whose ledger entry is complete. -/
def countComplete (m : String) (d : List (String × Entry))
    (papers : List Paper) : Nat :=
  papers.countP (fun p => isCompleteOpt (getEntry d (keyOf m p)))

/-- Componentwise sum of run counters. -/
def addStats (a b : RunStats) : RunStats :=
  ⟨a.processed + b.processed, a.skipped + b.skipped,
   a.failed + b.failed, a.sleeps + b.sleeps⟩

/-! ### Lemmas: papers-map operations -/

theorem getEntry_cons (q : String × Entry) (t : List (String × Entry)) (k : String) :
    getEntry (q :: t) k = if q.1 = k then some q.2 else getEntry t k := rfl

theorem getEntry_map_update (l : List (String × Entry)) (k : String) (v : Entry)
    (h : l.any (fun q => q.1 = k) = true) :
    getEntry (l.map (fun q => if q.1 = k then (k, v) else q)) k = some v := by
  induction l with
  | nil => simp at h
  | cons hd t ih =>
    by_cases hk : hd.1 = k
    · rw [List.map_cons, if_pos hk, getEntry_cons, if_pos rfl]
    · rw [List.map_cons, if_neg hk, getEntry_cons, if_neg hk]
      apply ih
      simpa [hk] using h

theorem getEntry_append_single (l : List (String × Entry)) (k : String) (v : Entry)
    (h : l.any (fun q => q.1 = k) = false) :
    getEntry (l ++ [(k, v)]) k = some v := by
  induction l with
  | nil => simp [getEntry]
  | cons hd t ih =>
    simp only [List.any_cons, Bool.or_eq_false_iff] at h
    have hk : ¬ hd.1 = k := by simpa using h.1
    rw [List.cons_append, getEntry_cons, if_neg hk]
    exact ih h.2

theorem getEntry_setKey_self (l : List (String × Entry)) (k : String) (v : Entry) :
    getEntry (setKey l k v) k = some v := by
  unfold setKey
  by_cases hp : l.any (fun q => q.1 = k) = true
  · rw [if_pos hp]
    exact getEntry_map_update l k v hp
  · rw [if_neg hp]
    exact getEntry_append_single l k v (Bool.eq_false_iff.mpr hp)

theorem getEntry_map_update_ne (l : List (String × Entry)) (k : String) (v : Entry)
    (k' : String) (h : k' ≠ k) :
    getEntry (l.map (fun q => if q.1 = k then (k, v) else q)) k' = getEntry l k' := by
  induction l with
  | nil => rfl
  | cons hd t ih =>
    by_cases hk : hd.1 = k
    · have hne : ¬ k = k' := fun hh => h hh.symm
      have hne2 : ¬ hd.1 = k' := by rw [hk]; exact hne
      rw [List.map_cons, if_pos hk, getEntry_cons, getEntry_cons, if_neg hne2]
      simp only [if_neg hne]
      exact ih
    · rw [List.map_cons, if_neg hk, getEntry_cons, getEntry_cons]
      by_cases hk' : hd.1 = k'
      · rw [if_pos hk', if_pos hk']
      · rw [if_neg hk', if_neg hk']
        exact ih

theorem getEntry_append_single_ne (l : List (String × Entry)) (k : String) (v : Entry)
    (k' : String) (h : k' ≠ k) :
    getEntry (l ++ [(k, v)]) k' = getEntry l k' := by
  induction l with
  | nil =>
    have hne : ¬ k = k' := fun hh => h hh.symm
    simp [getEntry, hne]
  | cons hd t ih =>
    rw [List.cons_append, getEntry_cons, getEntry_cons]
    by_cases hk' : hd.1 = k'
    · rw [if_pos hk', if_pos hk']
    · rw [if_neg hk', if_neg hk']
      exact ih

theorem getEntry_setKey_ne (l : List (String × Entry)) (k : String) (v : Entry)
    (k' : String) (h : k' ≠ k) :
    getEntry (setKey l k v) k' = getEntry l k' := by
  unfold setKey
  by_cases hp : l.any (fun q => q.1 = k) = true
  · rw [if_pos hp]
    exact getEntry_map_update_ne l k v k' h
  · rw [if_neg hp]
    exact getEntry_append_single_ne l k v k' h

theorem keys_map_update (l : List (String × Entry)) (k : String) (v : Entry) :
    (l.map (fun q => if q.1 = k then (k, v) else q)).map Prod.fst = l.map Prod.fst := by
  induction l with
  | nil => rfl
  | cons hd t ih =>
    by_cases hk : hd.1 = k
    · simp only [List.map_cons, if_pos hk, ih]
      simp [hk]
    · simp only [List.map_cons, if_neg hk, ih]

theorem nodupKeys_setKey (l : List (String × Entry)) (k : String) (v : Entry)
    (h : NodupKeys l) : NodupKeys (setKey l k v) := by
  unfold setKey
  by_cases hp : l.any (fun q => q.1 = k) = true
  · rw [if_pos hp]
    unfold NodupKeys
    rw [keys_map_update]
    exact h
  · rw [if_neg hp]
    unfold NodupKeys
    rw [List.map_append]
    refine List.Nodup.append h (List.nodup_singleton k) ?_
    intro a ha hb
    have hak : a = k := by simpa using hb
    subst hak
    have hpf : l.any (fun q => q.1 = a) = false := Bool.eq_false_iff.mpr hp
    rw [List.any_eq_false] at hpf
    obtain ⟨q, hq, hq1⟩ := List.mem_map.mp ha
    have hq2 := hpf q hq
    simp only [decide_eq_true_eq] at hq2
    exact hq2 hq1

theorem map_update_of_not_mem (l : List (String × Entry)) (k : String) (v : Entry)
    (h : ∀ q ∈ l, q.1 ≠ k) :
    l.map (fun q => if q.1 = k then (k, v) else q) = l := by
  induction l with
  | nil => rfl
  | cons hd t ih =>
    have h1 : hd.1 ≠ k := h hd (by simp)
    rw [List.map_cons, if_neg h1, ih (fun q hq => h q (by simp [hq]))]

theorem any_of_getEntry_some (l : List (String × Entry)) (k : String) (v : Entry)
    (hg : getEntry l k = some v) : l.any (fun q => q.1 = k) = true := by
  induction l with
  | nil => simp [getEntry] at hg
  | cons hd t ih =>
    by_cases hk : hd.1 = k
    · simp [hk]
    · rw [getEntry_cons, if_neg hk] at hg
      simp [ih hg]

theorem map_update_eq_self (l : List (String × Entry)) (k : String) (v : Entry)
    (hN : NodupKeys l) (hg : getEntry l k = some v) :
    l.map (fun q => if q.1 = k then (k, v) else q) = l := by
  induction l with
  | nil => simp [getEntry] at hg
  | cons hd t ih =>
    unfold NodupKeys at hN
    simp only [List.map_cons, List.nodup_cons] at hN
    by_cases hk : hd.1 = k
    · rw [getEntry_cons, if_pos hk] at hg
      have hv : hd.2 = v := Option.some.inj hg
      have htail : List.map (fun q => if q.1 = k then (k, v) else q) t = t := by
        refine map_update_of_not_mem t k v ?_
        intro q hq hqk
        exact hN.1 (by
          rw [hk, ← hqk]
          exact List.mem_map.mpr ⟨q, hq, rfl⟩)
      rw [List.map_cons, if_pos hk, htail]
      have hpair : (k, v) = hd := by
        cases hd
        simp_all
      rw [hpair]
    · rw [getEntry_cons, if_neg hk] at hg
      rw [List.map_cons, if_neg hk, ih hN.2 hg]

theorem setKey_eq_self (l : List (String × Entry)) (k : String) (v : Entry)
    (hN : NodupKeys l) (hg : getEntry l k = some v) :
    setKey l k v = l := by
  unfold setKey
  rw [if_pos (any_of_getEntry_some l k v hg)]
  exact map_update_eq_self l k v hN hg

theorem trackerKey_inj (m a b : String) (h : trackerKey m a = trackerKey m b) : a = b := by
  unfold trackerKey at h
  have h2 : (m ++ "/").data ++ a.data = (m ++ "/").data ++ b.data := by
    have hd := congrArg String.data h
    simpa [String.data_append] using hd
  have h3 := List.append_cancel_left h2
  cases a
  cases b
  simp only at h3
  rw [h3]

theorem isCompleteOpt_iff (o : Option Entry) :
    isCompleteOpt o = true ↔ ∃ md, o = some (.complete md) := by
  cases o with
  | none => simp [isCompleteOpt]
  | some e =>
    cases e with
    | complete md => simp [isCompleteOpt]
    | failed r => simp [isCompleteOpt]

theorem is_downloaded_eq (tr : Tracker) (p : Paper) (m : String) :
    is_downloaded tr p.paper_id m = isCompleteOpt (getEntry tr.data (keyOf m p)) := by
  unfold is_downloaded isCompleteOpt keyOf
  cases getEntry tr.data (trackerKey m p.paper_id) with
  | none => rfl
  | some e => cases e <;> rfl

/-! ### Lemmas: the per-item step -/

theorem processItem_skipped (env : Env) (m : String) (tr : Tracker) (s : RunStats)
    (p : Paper) (h : is_downloaded tr p.paper_id m = true) :
    processItem env m false (tr, s) p = (tr, { s with skipped := s.skipped + 1 }) := by
  simp [processItem, h]

theorem _process_paper_eq (env : Env) (m : String) (p : Paper) (tr : Tracker) :
    _process_paper env m p tr =
      (match outcomeOf env p with
       | .exn e => .error e
       | .noPdf => .ok (mark_failed tr p.paper_id m "No PDF URL found", false)
       | .dlFail => .ok (mark_failed tr p.paper_id m "PDF download failed", false)
       | .success => .ok (mark_complete tr p.paper_id m (metadataOf env.tables m p), true)) := by
  unfold _process_paper outcomeOf
  cases he : env.exn p.paper_id with
  | some e => rfl
  | none =>
    simp only
    cases hd : (get_paper_details (env.page p.url)).pdf_url with
    | none => rfl
    | some purl =>
      simp only
      by_cases hdl : env.download purl
      · simp [hdl]
      · simp [hdl]

theorem processItem_run (env : Env) (m : String) (tr : Tracker) (s : RunStats)
    (p : Paper) (h : is_downloaded tr p.paper_id m = false) :
    processItem env m false (tr, s) p =
      (⟨setKey tr.data (keyOf m p) (resultEntry env m p),
        setKey tr.data (keyOf m p) (resultEntry env m p)⟩,
       match outcomeOf env p with
       | .success => { s with processed := s.processed + 1, sleeps := s.sleeps + 1 }
       | .exn _ => { s with failed := s.failed + 1 }
       | _ => { s with failed := s.failed + 1, sleeps := s.sleeps + 1 }) := by
  unfold processItem
  simp only [Bool.not_false, Bool.true_and, h, if_false]
  rw [_process_paper_eq]
  unfold resultEntry keyOf
  cases ho : outcomeOf env p with
  | exn e => simp [mark_failed]
  | noPdf => simp [mark_failed]
  | dlFail => simp [mark_failed]
  | success => simp [mark_complete]

theorem processItem_shift (env : Env) (m : String) (force : Bool) (tr : Tracker)
    (s : RunStats) (p : Paper) :
    processItem env m force (tr, s) p =
      ((processItem env m force (tr, zeroStats) p).1,
       addStats s (processItem env m force (tr, zeroStats) p).2) := by
  obtain ⟨sp, ss, sf, sl⟩ := s
  unfold processItem
  dsimp only
  by_cases h : (!force && is_downloaded tr p.paper_id m) = true
  · simp [h, addStats, zeroStats]
  · rw [Bool.eq_false_iff.mpr h]
    simp only [if_false, Bool.false_eq_true]
    cases hpp : _process_paper env m p tr with
    | error e => simp [addStats, zeroStats]
    | ok res =>
      obtain ⟨tr', b⟩ := res
      cases b <;> simp [addStats, zeroStats]

theorem addStats_zero (s : RunStats) : addStats s zeroStats = s := by
  obtain ⟨sp, ss, sf, sl⟩ := s
  simp [addStats, zeroStats]

theorem addStats_assoc (a b c : RunStats) :
    addStats (addStats a b) c = addStats a (addStats b c) := by
  obtain ⟨x1, x2, x3, x4⟩ := a
  obtain ⟨y1, y2, y3, y4⟩ := b
  obtain ⟨z1, z2, z3, z4⟩ := c
  simp [addStats, Nat.add_assoc]

theorem foldl_shift (env : Env) (m : String) (force : Bool) (papers : List Paper) :
    ∀ (tr : Tracker) (s : RunStats),
      papers.foldl (processItem env m force) (tr, s) =
        ((papers.foldl (processItem env m force) (tr, zeroStats)).1,
         addStats s (papers.foldl (processItem env m force) (tr, zeroStats)).2) := by
  induction papers with
  | nil =>
    intro tr s
    simp [addStats_zero]
  | cons p rest ih =>
    intro tr s
    simp only [List.foldl_cons]
    rw [processItem_shift env m force tr s p]
    rw [ih (processItem env m force (tr, zeroStats) p).1
        (addStats s (processItem env m force (tr, zeroStats) p).2)]
    have hrhs : List.foldl (processItem env m force)
        (processItem env m force (tr, zeroStats) p) rest =
        List.foldl (processItem env m force)
          ((processItem env m force (tr, zeroStats) p).1,
           (processItem env m force (tr, zeroStats) p).2) rest := rfl
    rw [hrhs, ih (processItem env m force (tr, zeroStats) p).1
        (processItem env m force (tr, zeroStats) p).2]
    rw [addStats_assoc]

theorem foldl_pair (env : Env) (m : String) (force : Bool) (rest : List Paper)
    (st : Tracker × RunStats) :
    rest.foldl (processItem env m force) st =
      ((rest.foldl (processItem env m force) (st.1, zeroStats)).1,
       addStats st.2 (rest.foldl (processItem env m force) (st.1, zeroStats)).2) := by
  have h := foldl_shift env m force rest st.1 st.2
  simpa using h

/-! ### Lemmas: invariants of the processing loop -/

theorem complete_persists_step (env : Env) (m : String) (tr : Tracker) (s : RunStats)
    (p : Paper) (k : String) (md : Metadata)
    (h : getEntry tr.data k = some (.complete md)) :
    getEntry (processItem env m false (tr, s) p).1.data k = some (.complete md) := by
  by_cases hd : is_downloaded tr p.paper_id m = true
  · rw [processItem_skipped env m tr s p hd]
    exact h
  · rw [processItem_run env m tr s p (Bool.eq_false_iff.mpr hd)]
    by_cases hk : keyOf m p = k
    · exfalso
      apply hd
      rw [is_downloaded_eq, hk, h]
      rfl
    · exact (getEntry_setKey_ne tr.data (keyOf m p) (resultEntry env m p) k
        (fun hh => hk hh.symm)).trans h

theorem complete_persists_fold (env : Env) (m : String) (papers : List Paper) :
    ∀ (tr : Tracker) (s : RunStats) (k : String) (md : Metadata),
      getEntry tr.data k = some (.complete md) →
      getEntry ((papers.foldl (processItem env m false) (tr, s)).1).data k
        = some (.complete md) := by
  induction papers with
  | nil => intro tr s k md h; exact h
  | cons p rest ih =>
    intro tr s k md h
    rw [List.foldl_cons]
    exact ih (processItem env m false (tr, s) p).1 (processItem env m false (tr, s) p).2
      k md (complete_persists_step env m tr s p k md h)

theorem untouched_key_step (env : Env) (m : String) (tr : Tracker) (s : RunStats)
    (p : Paper) (k : String) (hk : keyOf m p ≠ k) :
    getEntry (processItem env m false (tr, s) p).1.data k = getEntry tr.data k := by
  by_cases hd : is_downloaded tr p.paper_id m = true
  · rw [processItem_skipped env m tr s p hd]
  · rw [processItem_run env m tr s p (Bool.eq_false_iff.mpr hd)]
    exact getEntry_setKey_ne tr.data (keyOf m p) (resultEntry env m p) k
      (fun hh => hk hh.symm)

theorem untouched_key_fold (env : Env) (m : String) (papers : List Paper) :
    ∀ (tr : Tracker) (s : RunStats) (k : String),
      (∀ q ∈ papers, keyOf m q ≠ k) →
      getEntry ((papers.foldl (processItem env m false) (tr, s)).1).data k
        = getEntry tr.data k := by
  induction papers with
  | nil => intro tr s k _; rfl
  | cons p rest ih =>
    intro tr s k h
    rw [List.foldl_cons]
    rw [ih (processItem env m false (tr, s) p).1 (processItem env m false (tr, s) p).2
        k (fun q hq => h q (by simp [hq]))]
    exact untouched_key_step env m tr s p k (h p (by simp))

theorem nodupKeys_step (env : Env) (m : String) (tr : Tracker) (s : RunStats)
    (p : Paper) (h : NodupKeys tr.data) :
    NodupKeys (processItem env m false (tr, s) p).1.data := by
  by_cases hd : is_downloaded tr p.paper_id m = true
  · rw [processItem_skipped env m tr s p hd]
    exact h
  · rw [processItem_run env m tr s p (Bool.eq_false_iff.mpr hd)]
    exact nodupKeys_setKey tr.data (keyOf m p) (resultEntry env m p) h

theorem nodupKeys_fold (env : Env) (m : String) (papers : List Paper) :
    ∀ (tr : Tracker) (s : RunStats), NodupKeys tr.data →
      NodupKeys ((papers.foldl (processItem env m false) (tr, s)).1).data := by
  induction papers with
  | nil => intro tr s h; exact h
  | cons p rest ih =>
    intro tr s h
    rw [List.foldl_cons]
    exact ih (processItem env m false (tr, s) p).1 (processItem env m false (tr, s) p).2
      (nodupKeys_step env m tr s p h)

theorem goodEntryD_of_resultEntry (env : Env) (m : String) (d : List (String × Entry))
    (p : Paper) (h : getEntry d (keyOf m p) = some (resultEntry env m p)) :
    goodEntryD env m d p := by
  unfold goodEntryD
  rw [h]
  unfold resultEntry
  cases outcomeOf env p <;> simp

theorem addStats_processed (a b : RunStats) :
    (addStats a b).processed = a.processed + b.processed := rfl

theorem addStats_skipped (a b : RunStats) :
    (addStats a b).skipped = a.skipped + b.skipped := rfl

theorem addStats_failed (a b : RunStats) :
    (addStats a b).failed = a.failed + b.failed := rfl

theorem addStats_sleeps (a b : RunStats) :
    (addStats a b).sleeps = a.sleeps + b.sleeps := rfl

theorem zeroStats_processed : zeroStats.processed = 0 := rfl

theorem zeroStats_skipped : zeroStats.skipped = 0 := rfl

theorem zeroStats_failed : zeroStats.failed = 0 := rfl

theorem zeroStats_sleeps : zeroStats.sleeps = 0 := rfl

theorem processItem_run_fst (env : Env) (m : String) (tr : Tracker) (s : RunStats)
    (p : Paper) (hd : is_downloaded tr p.paper_id m = false) :
    (processItem env m false (tr, s) p).1 =
      ⟨setKey tr.data (keyOf m p) (resultEntry env m p),
       setKey tr.data (keyOf m p) (resultEntry env m p)⟩ := by
  rw [processItem_run env m tr s p hd]

theorem processItem_run_processed (env : Env) (m : String) (tr : Tracker) (s : RunStats)
    (p : Paper) (hd : is_downloaded tr p.paper_id m = false) :
    (processItem env m false (tr, s) p).2.processed
      = s.processed + (if isCompleteOpt (some (resultEntry env m p)) = true then 1 else 0) := by
  rw [processItem_run env m tr s p hd]
  unfold resultEntry isCompleteOpt
  cases outcomeOf env p <;> simp

theorem processItem_run_skipped (env : Env) (m : String) (tr : Tracker) (s : RunStats)
    (p : Paper) (hd : is_downloaded tr p.paper_id m = false) :
    (processItem env m false (tr, s) p).2.skipped = s.skipped := by
  rw [processItem_run env m tr s p hd]
  cases outcomeOf env p <;> rfl

/-- After one run the tracker keys are still duplicate-free, every listed
paper has a settled entry, and the number of complete entries among the
listed papers equals the processed count plus the skipped count of the run. -/
theorem run1_good (env : Env) (m : String) :
    ∀ (papers : List Paper) (tr : Tracker),
      NodupKeys tr.data → (papers.map Paper.paper_id).Nodup →
      NodupKeys ((papers.foldl (processItem env m false) (tr, zeroStats)).1).data
      ∧ (∀ p ∈ papers,
          goodEntryD env m
            ((papers.foldl (processItem env m false) (tr, zeroStats)).1).data p)
      ∧ countComplete m
            ((papers.foldl (processItem env m false) (tr, zeroStats)).1).data papers
        = (papers.foldl (processItem env m false) (tr, zeroStats)).2.processed
          + (papers.foldl (processItem env m false) (tr, zeroStats)).2.skipped := by
  intro papers
  induction papers with
  | nil =>
    intro tr hN _
    refine ⟨hN, by simp, ?_⟩
    simp [countComplete, zeroStats]
  | cons p rest ih =>
    intro tr hN hIds
    simp only [List.map_cons, List.nodup_cons] at hIds
    obtain ⟨hpid, hIds'⟩ := hIds
    have hkeys : ∀ q ∈ rest, keyOf m q ≠ keyOf m p := by
      intro q hq heq
      exact hpid (by
        have hqq : q.paper_id = p.paper_id := trackerKey_inj m q.paper_id p.paper_id heq
        rw [← hqq]
        exact List.mem_map.mpr ⟨q, hq, rfl⟩)
    rw [List.foldl_cons,
      foldl_pair env m false rest (processItem env m false (tr, zeroStats) p)]
    by_cases hd : is_downloaded tr p.paper_id m = true
    · have hfst : (processItem env m false (tr, zeroStats) p).1 = tr := by
        rw [processItem_skipped env m tr zeroStats p hd]
      have hsnd : (processItem env m false (tr, zeroStats) p).2
          = { zeroStats with skipped := zeroStats.skipped + 1 } := by
        rw [processItem_skipped env m tr zeroStats p hd]
      rw [hfst]
      obtain ⟨N1, G1, C1⟩ := ih tr hN hIds'
      rw [is_downloaded_eq] at hd
      obtain ⟨md, hmd⟩ := (isCompleteOpt_iff _).mp hd
      have hpers := complete_persists_fold env m rest tr zeroStats (keyOf m p) md hmd
      refine ⟨N1, ?_, ?_⟩
      · intro q hq
        rcases List.mem_cons.mp hq with hq | hq
        · subst hq
          unfold goodEntryD
          rw [hpers]
          exact trivial
        · exact G1 q hq
      · unfold countComplete at C1 ⊢
        rw [List.countP_cons]
        have hif : isCompleteOpt
            (getEntry ((rest.foldl (processItem env m false) (tr, zeroStats)).1).data
              (keyOf m p)) = true := by
          rw [hpers]
          rfl
        rw [addStats_processed, addStats_skipped, hsnd]
        simp only [hif, decide_eq_true_eq, if_true, zeroStats_processed, zeroStats_skipped]
        omega
    · have hd' : is_downloaded tr p.paper_id m = false := Bool.eq_false_iff.mpr hd
      have hfst := processItem_run_fst env m tr zeroStats p hd'
      rw [hfst]
      set trW : Tracker := ⟨setKey tr.data (keyOf m p) (resultEntry env m p),
        setKey tr.data (keyOf m p) (resultEntry env m p)⟩ with htrW
      have hNW : NodupKeys trW.data :=
        nodupKeys_setKey tr.data (keyOf m p) (resultEntry env m p) hN
      obtain ⟨N1, G1, C1⟩ := ih trW hNW hIds'
      have huntouched := untouched_key_fold env m rest trW zeroStats (keyOf m p) hkeys
      have hres : getEntry
          ((rest.foldl (processItem env m false) (trW, zeroStats)).1).data (keyOf m p)
          = some (resultEntry env m p) := by
        rw [huntouched]
        exact getEntry_setKey_self tr.data (keyOf m p) (resultEntry env m p)
      refine ⟨N1, ?_, ?_⟩
      · intro q hq
        rcases List.mem_cons.mp hq with hq | hq
        · subst hq
          exact goodEntryD_of_resultEntry env m _ q hres
        · exact G1 q hq
      · unfold countComplete at C1 ⊢
        rw [List.countP_cons]
        rw [addStats_processed, addStats_skipped]
        rw [processItem_run_processed env m tr zeroStats p hd',
          processItem_run_skipped env m tr zeroStats p hd']
        simp only [hres, zeroStats_processed, zeroStats_skipped]
        by_cases hc : isCompleteOpt (some (resultEntry env m p)) = true
        · simp only [hc, decide_eq_true_eq, if_true]
          omega
        · rw [Bool.eq_false_iff.mpr hc]
          simp only [Bool.false_eq_true, if_false, decide_eq_true_eq]
          omega

theorem keys_ne_of_not_mem (m : String) (p : Paper) (rest : List Paper)
    (hpid : p.paper_id ∉ rest.map Paper.paper_id) :
    ∀ q ∈ rest, keyOf m q ≠ keyOf m p := by
  intro q hq heq
  exact hpid (by
    have hqq : q.paper_id = p.paper_id := trackerKey_inj m q.paper_id p.paper_id heq
    rw [← hqq]
    exact List.mem_map.mpr ⟨q, hq, rfl⟩)

/-- When no listed paper starts out with a complete entry and the listed ids
are pairwise distinct, a run skips nothing. -/
theorem run1_no_skip (env : Env) (m : String) :
    ∀ (papers : List Paper) (tr : Tracker),
      (papers.map Paper.paper_id).Nodup →
      (∀ p ∈ papers, is_downloaded tr p.paper_id m = false) →
      (papers.foldl (processItem env m false) (tr, zeroStats)).2.skipped = 0 := by
  intro papers
  induction papers with
  | nil => intro tr _ _; rfl
  | cons p rest ih =>
    intro tr hIds hFresh
    simp only [List.map_cons, List.nodup_cons] at hIds
    obtain ⟨hpid, hIds'⟩ := hIds
    have hdp : is_downloaded tr p.paper_id m = false := hFresh p (by simp)
    rw [List.foldl_cons,
      foldl_pair env m false rest (processItem env m false (tr, zeroStats) p),
      addStats_skipped, processItem_run_skipped env m tr zeroStats p hdp,
      zeroStats_skipped, processItem_run_fst env m tr zeroStats p hdp]
    have hFresh' : ∀ q ∈ rest,
        is_downloaded
          (⟨setKey tr.data (keyOf m p) (resultEntry env m p),
            setKey tr.data (keyOf m p) (resultEntry env m p)⟩ : Tracker) q.paper_id m
          = false := by
      intro q hq
      rw [is_downloaded_eq]
      have hkq : keyOf m q ≠ keyOf m p := keys_ne_of_not_mem m p rest hpid q hq
      show isCompleteOpt
          (getEntry (setKey tr.data (keyOf m p) (resultEntry env m p)) (keyOf m q)) = false
      rw [getEntry_setKey_ne tr.data (keyOf m p) (resultEntry env m p) (keyOf m q) hkq]
      rw [← is_downloaded_eq]
      exact hFresh q (by simp [hq])
    rw [ih _ hIds' hFresh']

/-- Running again over a settled ledger changes nothing: the papers map is
untouched and the items skipped are exactly those with complete entries. -/
theorem run2_stable (env : Env) (m : String) :
    ∀ (papers : List Paper) (d : List (String × Entry)),
      NodupKeys d →
      (∀ p ∈ papers, goodEntryD env m d p) →
      ∀ tr : Tracker, tr.data = d →
        ((papers.foldl (processItem env m false) (tr, zeroStats)).1).data = d
        ∧ (papers.foldl (processItem env m false) (tr, zeroStats)).2.skipped
          = countComplete m d papers := by
  intro papers
  induction papers with
  | nil =>
    intro d _ _ tr htr
    exact ⟨htr, by simp [countComplete, zeroStats]⟩
  | cons p rest ih =>
    intro d hN hGood tr htr
    have hgp := hGood p (by simp)
    unfold goodEntryD at hgp
    rw [List.foldl_cons,
      foldl_pair env m false rest (processItem env m false (tr, zeroStats) p)]
    cases hE : getEntry d (keyOf m p) with
    | none => rw [hE] at hgp; exact absurd hgp (by simp)
    | some e =>
      rw [hE] at hgp
      cases e with
      | complete md =>
        have hd : is_downloaded tr p.paper_id m = true := by
          rw [is_downloaded_eq]
          show isCompleteOpt (getEntry tr.data (keyOf m p)) = true
          rw [htr, hE]
          rfl
        have hfst : (processItem env m false (tr, zeroStats) p).1 = tr := by
          rw [processItem_skipped env m tr zeroStats p hd]
        have hsnd : (processItem env m false (tr, zeroStats) p).2
            = { zeroStats with skipped := zeroStats.skipped + 1 } := by
          rw [processItem_skipped env m tr zeroStats p hd]
        rw [hfst, addStats_skipped, hsnd]
        obtain ⟨h1, h2⟩ := ih d hN (fun q hq => hGood q (by simp [hq])) tr htr
        refine ⟨h1, ?_⟩
        unfold countComplete
        rw [List.countP_cons]
        have hif : isCompleteOpt (getEntry d (keyOf m p)) = true := by rw [hE]; rfl
        unfold countComplete at h2
        simp only [hif, decide_eq_true_eq, if_true, zeroStats_skipped]
        omega
      | failed r =>
        have hd : is_downloaded tr p.paper_id m = false := by
          rw [is_downloaded_eq]
          show isCompleteOpt (getEntry tr.data (keyOf m p)) = false
          rw [htr, hE]
          rfl
        have hfst := processItem_run_fst env m tr zeroStats p hd
        have hW : setKey tr.data (keyOf m p) (resultEntry env m p) = d := by
          rw [htr, hgp]
          exact setKey_eq_self d (keyOf m p) (.failed r) hN hE
        rw [hfst]
        have htr' : (⟨setKey tr.data (keyOf m p) (resultEntry env m p),
            setKey tr.data (keyOf m p) (resultEntry env m p)⟩ : Tracker).data = d := hW
        obtain ⟨h1, h2⟩ := ih d hN (fun q hq => hGood q (by simp [hq])) _ htr'
        refine ⟨h1, ?_⟩
        rw [addStats_skipped, processItem_run_skipped env m tr zeroStats p hd,
          zeroStats_skipped]
        unfold countComplete
        rw [List.countP_cons]
        have hif : isCompleteOpt (getEntry d (keyOf m p)) = false := by rw [hE]; rfl
        unfold countComplete at h2
        simp only [hif, Bool.false_eq_true, decide_eq_true_eq, if_false]
        omega

theorem processItem_total (env : Env) (m : String) (force : Bool) (tr : Tracker)
    (s : RunStats) (p : Paper) :
    (processItem env m force (tr, s) p).2.processed
      + (processItem env m force (tr, s) p).2.skipped
      + (processItem env m force (tr, s) p).2.failed
      = s.processed + s.skipped + s.failed + 1 := by
  unfold processItem
  dsimp only
  by_cases h : (!force && is_downloaded tr p.paper_id m) = true
  · simp only [h, if_true]
    omega
  · rw [Bool.eq_false_iff.mpr h]
    simp only [Bool.false_eq_true, if_false]
    cases hpp : _process_paper env m p tr with
    | error e => simp only; omega
    | ok res =>
      obtain ⟨tr', b⟩ := res
      cases b <;> (simp only; omega)

/-- Every iteration of the loop increments exactly one of the three
counters: no item aborts the loop. -/
theorem fold_total_count (env : Env) (m : String) (force : Bool) :
    ∀ (papers : List Paper) (tr : Tracker) (s : RunStats),
      (papers.foldl (processItem env m force) (tr, s)).2.processed
        + (papers.foldl (processItem env m force) (tr, s)).2.skipped
        + (papers.foldl (processItem env m force) (tr, s)).2.failed
      = s.processed + s.skipped + s.failed + papers.length := by
  intro papers
  induction papers with
  | nil => intro tr s; simp
  | cons p rest ih =>
    intro tr s
    rw [List.foldl_cons]
    have heta : processItem env m force (tr, s) p
        = ((processItem env m force (tr, s) p).1, (processItem env m force (tr, s) p).2) := rfl
    rw [heta, ih (processItem env m force (tr, s) p).1 (processItem env m force (tr, s) p).2]
    rw [processItem_total env m force tr s p]
    simp only [List.length_cons]
    omega

theorem processItem_attempt (env : Env) (m : String) (force : Bool) (tr : Tracker)
    (s : RunStats) (p : Paper)
    (hAtt : (!force && is_downloaded tr p.paper_id m) = false) :
    processItem env m force (tr, s) p =
      (⟨setKey tr.data (keyOf m p) (resultEntry env m p),
        setKey tr.data (keyOf m p) (resultEntry env m p)⟩,
       match outcomeOf env p with
       | .success => { s with processed := s.processed + 1, sleeps := s.sleeps + 1 }
       | .exn _ => { s with failed := s.failed + 1 }
       | _ => { s with failed := s.failed + 1, sleeps := s.sleeps + 1 }) := by
  unfold processItem
  dsimp only
  rw [hAtt]
  simp only [Bool.false_eq_true, if_false]
  rw [_process_paper_eq]
  unfold resultEntry keyOf
  cases outcomeOf env p with
  | exn e => simp [mark_failed]
  | noPdf => simp [mark_failed]
  | dlFail => simp [mark_failed]
  | success => simp [mark_complete]

theorem mem_collapseWsAux (T : PyTables) (b : Bool) (l : List Char) (c : Char)
    (h : c ∈ collapseWsAux T b l) :
    c = '-' ∨ (c ∈ l ∧ pyIsSpaceChar T c = false) := by
  induction l generalizing b with
  | nil => simp [collapseWsAux] at h
  | cons hd t ih =>
    unfold collapseWsAux at h
    by_cases hsp : pyIsSpaceChar T hd = true
    · rw [if_pos hsp] at h
      rcases List.mem_append.mp h with h | h
      · left
        cases b with
        | false => simpa using h
        | true => simp at h
      · rcases ih true h with h | ⟨h1, h2⟩
        · left; exact h
        · right; exact ⟨List.mem_cons_of_mem hd h1, h2⟩
    · rw [if_neg hsp] at h
      rcases List.mem_cons.mp h with h | h
      · right
        rw [h]
        exact ⟨List.mem_cons_self hd t, Bool.eq_false_iff.mpr hsp⟩
      · rcases ih false h with h | ⟨h1, h2⟩
        · left; exact h
        · right; exact ⟨List.mem_cons_of_mem hd h1, h2⟩

/-! ### Concrete instances used by witnesses and counterexamples -/

/-- Concrete regex tables for the ASCII-only example inputs: the abstract
non-ASCII entries are never consulted on them, so any choice works. -/
def tablesEx : PyTables := ⟨fun _ => false, fun _ => false⟩

/-- A deterministic example environment in which the single example paper
processes to completion: its detail page has an abs-form arXiv link, the
download succeeds, the extraction library is absent, no credential. -/
def envOk : Env :=
  { tables := tablesEx
    page := fun _ =>
      { arxivLinks := ["https://arxiv.org/abs/2511.00001"]
        githubLinks := []
        abstractText := some "An abstract about widgets"
        fetchError := false }
    download := fun _ => true
    pdfFile := fun _ => .noLib
    exn := fun _ => none
    apiKey := none
    aiSummary := none }

/-- Variant of the example environment in which the per-item pipeline
raises an exception with message boom. -/
def envExn : Env := { envOk with exn := fun _ => some "boom" }

/-- The example paper item. -/
def paperEx : Paper :=
  { title := "A Study of Widgets"
    url := "https://huggingface.co/papers/2511.00001"
    paper_id := "2511.00001" }

/-- The metadata the pipeline would record for the example paper. -/
def mdEx : Metadata := metadataOf tablesEx "2025-11" paperEx

/-- The empty tracker (fresh ledger). -/
def trEmpty : Tracker := ⟨[], []⟩

/-- A tracker whose ledger already holds a complete entry for the example
paper. -/
def trPre : Tracker :=
  ⟨[("2025-11/2511.00001", .complete mdEx)], [("2025-11/2511.00001", .complete mdEx)]⟩

/-- A tracker whose ledger holds a failed entry for the example paper. -/
def trFailed : Tracker :=
  ⟨[("2025-11/2511.00001", .failed "PDF download failed")],
   [("2025-11/2511.00001", .failed "PDF download failed")]⟩

/-- An example detail page whose first arXiv link is in abs form. -/
def pageAbs : PaperPage :=
  { arxivLinks := ["https://arxiv.org/abs/2511.00001"]
    githubLinks := []
    abstractText := none
    fetchError := false }

/-! ### Claim theorems -/

/-- C1 (amended): starting from a ledger with duplicate-free keys that
holds no complete entry for any listed item, and with the de-duplicated
lister list, running process_month twice for the same period without force
in the same environment yields identical ledger entries, and the second
run skips exactly as many items as the first run completed. -/
theorem process_month_idempotent (env : Env) (m : String) (papers : List Paper)
    (tr0 : Tracker)
    (hIds : (papers.map Paper.paper_id).Nodup)
    (hKeys : NodupKeys tr0.data)
    (hFresh : ∀ p ∈ papers, is_downloaded tr0 p.paper_id m = false) :
    ((process_month env m false papers
        (process_month env m false papers tr0).1).1).data
      = ((process_month env m false papers tr0).1).data
    ∧ (process_month env m false papers
        (process_month env m false papers tr0).1).2.skipped
      = (process_month env m false papers tr0).2.processed := by
  obtain ⟨N1, G1, C1c⟩ := run1_good env m papers tr0 hKeys hIds
  have hskip0 := run1_no_skip env m papers tr0 hIds hFresh
  unfold process_month
  obtain ⟨hdata, hskip⟩ := run2_stable env m papers
    ((papers.foldl (processItem env m false) (tr0, zeroStats)).1).data N1 G1
    (papers.foldl (processItem env m false) (tr0, zeroStats)).1 rfl
  refine ⟨hdata, ?_⟩
  rw [hskip, C1c, hskip0]
  omega

theorem process_month_idempotent_witness :
    ((([paperEx] : List Paper).map Paper.paper_id).Nodup
      ∧ NodupKeys trEmpty.data
      ∧ (∀ p ∈ ([paperEx] : List Paper),
          is_downloaded trEmpty p.paper_id "2025-11" = false))
    ∧ ((process_month envOk "2025-11" false [paperEx]
          (process_month envOk "2025-11" false [paperEx] trEmpty).1).1).data
        = ((process_month envOk "2025-11" false [paperEx] trEmpty).1).data
    ∧ (process_month envOk "2025-11" false [paperEx]
        (process_month envOk "2025-11" false [paperEx] trEmpty).1).2.skipped
      = (process_month envOk "2025-11" false [paperEx] trEmpty).2.processed := by
  refine ⟨⟨by decide, by unfold NodupKeys; decide, by decide⟩, ?_⟩
  exact process_month_idempotent envOk "2025-11" [paperEx] trEmpty
    (by decide) (by unfold NodupKeys; decide) (by decide)

/-- C1 counterexample: when the ledger already holds a complete entry for
the single listed item, both runs skip it; the second run skips one item
while the first run completes zero, so the claimed count equality fails. -/
theorem process_month_idempotent_cex :
    ¬ (((process_month envOk "2025-11" false [paperEx]
          (process_month envOk "2025-11" false [paperEx] trPre).1).1).data
        = ((process_month envOk "2025-11" false [paperEx] trPre).1).data
      ∧ (process_month envOk "2025-11" false [paperEx]
          (process_month envOk "2025-11" false [paperEx] trPre).1).2.skipped
        = (process_month envOk "2025-11" false [paperEx] trPre).2.processed) := by
  decide

/-- C7 (amended): the fixed 2-second delay runs after an item exactly when
the item was not skipped and its pipeline did not raise; skipped items and
items failed by an uncaught exception get no delay. -/
theorem sleep_per_item (env : Env) (m : String) (p : Paper) (tr : Tracker)
    (s : RunStats) :
    (processItem env m false (tr, s) p).2.sleeps =
      s.sleeps + (if is_downloaded tr p.paper_id m = true then 0
        else match outcomeOf env p with
          | .exn _ => 0
          | _ => 1) := by
  by_cases hd : is_downloaded tr p.paper_id m = true
  · rw [processItem_skipped env m tr s p hd, if_pos hd]
    simp
  · rw [processItem_run env m tr s p (Bool.eq_false_iff.mpr hd), if_neg hd]
    cases outcomeOf env p <;> simp

/-- C7 counterexample: the single listed item is skipped because its ledger
entry is complete, and no delay is executed for it, so the number of sleeps
differs from the number of items. -/
theorem sleep_after_each_item_cex :
    ¬ ((process_month envOk "2025-11" false [paperEx] trPre).2.sleeps
        = ([paperEx] : List Paper).length) := by
  decide

/-- C2: every loop iteration increments exactly one of the three counters,
so one item never aborts the period; and for a non-skipped item, an
uncaught exception with message e is recorded as failed e, a detail page
without asset url as failed with reason No PDF URL found, and a failing
download as failed with reason PDF download failed. -/
theorem per_item_failure_isolation (env : Env) (m : String) (force : Bool)
    (papers : List Paper) (tr0 tr : Tracker) (s : RunStats) (p : Paper)
    (hAtt : (!force && is_downloaded tr p.paper_id m) = false) :
    ((process_month env m force papers tr0).2.processed
      + (process_month env m force papers tr0).2.skipped
      + (process_month env m force papers tr0).2.failed = papers.length)
    ∧ (∀ e, env.exn p.paper_id = some e →
        getEntry (processItem env m force (tr, s) p).1.data (trackerKey m p.paper_id)
          = some (.failed e)
        ∧ (processItem env m force (tr, s) p).2.failed = s.failed + 1)
    ∧ (env.exn p.paper_id = none →
        (get_paper_details (env.page p.url)).pdf_url = none →
        getEntry (processItem env m force (tr, s) p).1.data (trackerKey m p.paper_id)
          = some (.failed "No PDF URL found"))
    ∧ (∀ purl, env.exn p.paper_id = none →
        (get_paper_details (env.page p.url)).pdf_url = some purl →
        env.download purl = false →
        getEntry (processItem env m force (tr, s) p).1.data (trackerKey m p.paper_id)
          = some (.failed "PDF download failed")) := by
  have hstep := processItem_attempt env m force tr s p hAtt
  refine ⟨?_, ?_, ?_, ?_⟩
  · unfold process_month
    rw [fold_total_count env m force papers tr0 zeroStats]
    simp [zeroStats]
  · intro e he
    have ho : outcomeOf env p = .exn e := by
      unfold outcomeOf
      rw [he]
    have hres : resultEntry env m p = .failed e := by
      unfold resultEntry
      rw [ho]
    rw [hstep, ho, hres]
    constructor
    · show getEntry (setKey tr.data (keyOf m p) (.failed e)) (trackerKey m p.paper_id)
        = some (.failed e)
      unfold keyOf
      exact getEntry_setKey_self tr.data (trackerKey m p.paper_id) (.failed e)
    · rfl
  · intro he hpdf
    have ho : outcomeOf env p = .noPdf := by
      unfold outcomeOf
      rw [he]
      dsimp only
      rw [hpdf]
    have hres : resultEntry env m p = .failed "No PDF URL found" := by
      unfold resultEntry
      rw [ho]
    rw [hstep, hres]
    show getEntry (setKey tr.data (keyOf m p) (.failed "No PDF URL found"))
        (trackerKey m p.paper_id) = some (.failed "No PDF URL found")
    unfold keyOf
    exact getEntry_setKey_self tr.data (trackerKey m p.paper_id) (.failed "No PDF URL found")
  · intro purl he hpdf hdl
    have ho : outcomeOf env p = .dlFail := by
      unfold outcomeOf
      rw [he]
      dsimp only
      rw [hpdf]
      dsimp only
      rw [hdl]
      rfl
    have hres : resultEntry env m p = .failed "PDF download failed" := by
      unfold resultEntry
      rw [ho]
    rw [hstep, hres]
    show getEntry (setKey tr.data (keyOf m p) (.failed "PDF download failed"))
        (trackerKey m p.paper_id) = some (.failed "PDF download failed")
    unfold keyOf
    exact getEntry_setKey_self tr.data (trackerKey m p.paper_id)
      (.failed "PDF download failed")

theorem per_item_failure_isolation_witness :
    ((!false && is_downloaded trEmpty paperEx.paper_id "2025-11") = false)
    ∧ getEntry (processItem envExn "2025-11" false (trEmpty, zeroStats) paperEx).1.data
        (trackerKey "2025-11" paperEx.paper_id) = some (.failed "boom") :=
  ⟨by decide,
   ((per_item_failure_isolation envExn "2025-11" false [paperEx] trEmpty trEmpty
      zeroStats paperEx (by decide)).2.1 "boom" rfl).1⟩

/-- C3: both recording operations write under the month-slash-id key,
replace any prior entry for it while leaving other keys alone, copy the
full papers map to disk before returning, and preserve the at-most-one
entry-per-key invariant. -/
theorem tracker_write_through (tr : Tracker) (pid m : String) (md : Metadata)
    (err : String) (hN : NodupKeys tr.data) :
    (getEntry (mark_complete tr pid m md).data (trackerKey m pid) = some (.complete md)
      ∧ (mark_complete tr pid m md).disk = (mark_complete tr pid m md).data
      ∧ (∀ k, k ≠ trackerKey m pid →
          getEntry (mark_complete tr pid m md).data k = getEntry tr.data k)
      ∧ NodupKeys (mark_complete tr pid m md).data)
    ∧ (getEntry (mark_failed tr pid m err).data (trackerKey m pid) = some (.failed err)
      ∧ (mark_failed tr pid m err).disk = (mark_failed tr pid m err).data
      ∧ (∀ k, k ≠ trackerKey m pid →
          getEntry (mark_failed tr pid m err).data k = getEntry tr.data k)
      ∧ NodupKeys (mark_failed tr pid m err).data) := by
  unfold mark_complete mark_failed
  exact ⟨⟨getEntry_setKey_self tr.data (trackerKey m pid) (.complete md), rfl,
      fun k hk => getEntry_setKey_ne tr.data (trackerKey m pid) (.complete md) k hk,
      nodupKeys_setKey tr.data (trackerKey m pid) (.complete md) hN⟩,
    ⟨getEntry_setKey_self tr.data (trackerKey m pid) (.failed err), rfl,
      fun k hk => getEntry_setKey_ne tr.data (trackerKey m pid) (.failed err) k hk,
      nodupKeys_setKey tr.data (trackerKey m pid) (.failed err) hN⟩⟩

theorem tracker_write_through_witness :
    NodupKeys trEmpty.data
    ∧ getEntry (mark_complete trEmpty "2511.00001" "2025-11" mdEx).data
        (trackerKey "2025-11" "2511.00001") = some (.complete mdEx) :=
  ⟨by unfold NodupKeys; decide,
   (tracker_write_through trEmpty "2511.00001" "2025-11" mdEx "e"
      (by unfold NodupKeys; decide)).1.1⟩

/-- C4 counterexample: on a title of one hundred dots followed by abc the
code first strips the dots and then truncates, producing the stem abc,
whereas truncating the raw title to its first 100 characters before
sanitizing produces the empty stem: the two derivations disagree.  (The
title is pure ASCII, so the abstract non-ASCII tables are never
consulted.) -/
theorem safe_title_truncation_cex :
    safe_title tablesEx (String.mk (List.replicate 100 '.' ++ ['a', 'b', 'c'])) = "abc"
    ∧ spec_safe_title tablesEx (String.mk (List.replicate 100 '.' ++ ['a', 'b', 'c'])) = ""
    ∧ safe_title tablesEx (String.mk (List.replicate 100 '.' ++ ['a', 'b', 'c']))
      ≠ spec_safe_title tablesEx (String.mk (List.replicate 100 '.' ++ ['a', 'b', 'c'])) := by
  exact ⟨by decide, by decide, by decide⟩

/-- C4 (amended): whatever the Unicode tables, the stem is obtained by
removing every character outside word characters, whitespace and hyphen,
then truncating to 100 characters, then replacing every whitespace run by
one hyphen; and for a title made of ASCII characters the result contains
no character outside letters, digits, underscore and hyphen.  (The class
backslash-w keeps non-ASCII word characters, which then survive into the
stem, so the character-class property is scoped to ASCII titles; see
`safe_title_keeps_nonascii_word`.) -/
theorem safe_title_sanitization (T : PyTables) (title : String)
    (hascii : ∀ c ∈ title.data, isASCIIChar c = true) :
    safe_title T title = String.mk (collapseWs T ((stripNonWord T title.data).take 100))
    ∧ ∀ c ∈ (safe_title T title).data, (c.isAlphanum || c == '_' || c == '-') = true := by
  refine ⟨rfl, ?_⟩
  intro c hc
  have hc' : c ∈ collapseWs T ((stripNonWord T title.data).take 100) := hc
  rcases mem_collapseWsAux T false _ c hc' with h | ⟨hmem, hsp⟩
  · rw [h]
    rfl
  · have hmem' : c ∈ stripNonWord T title.data := List.mem_of_mem_take hmem
    have ha : isASCIIChar c = true := hascii c (List.mem_of_mem_filter hmem')
    have hcls := (List.mem_filter.mp hmem').2
    simp only [pyIsWordChar, ha, if_true, hsp, Bool.or_false, Bool.false_or] at hcls
    simp only [Bool.or_eq_true] at hcls ⊢
    tauto

theorem safe_title_sanitization_witness :
    (∀ c ∈ ("A Study: of Widgets!" : String).data, isASCIIChar c = true)
    ∧ ('A' ∈ (safe_title tablesEx "A Study: of Widgets!").data)
    ∧ ('A'.isAlphanum || 'A' == '_' || 'A' == '-') = true :=
  ⟨by decide, by decide,
   (safe_title_sanitization tablesEx "A Study: of Widgets!" (by decide)).2 'A'
     (by decide)⟩

/-- Under the real interpreter the letter e-acute is a word character of
the class backslash-w, so a title containing it keeps it: with a table
recording that fact, the stem of the title Resume spelled with acute
accents contains a character outside letters, digits, underscore and
hyphen.  This is what forces the ASCII scope of the character-class part
of the amended C4. -/
theorem safe_title_keeps_nonascii_word :
    safe_title ⟨fun c => c == 'é', fun _ => false⟩ "Résumé" = "Résumé"
    ∧ ¬ (∀ c ∈ (safe_title ⟨fun c => c == 'é', fun _ => false⟩ "Résumé").data,
        (c.isAlphanum || c == '_' || c == '-') = true) := by
  exact ⟨by decide, by decide⟩

/-- C5: when the first matching arXiv link of a detail page contains the
substring slash-abs-slash, the resolved pdf url is that link with abs
replaced by pdf and a trailing dot-pdf appended; a link without it (the
pdf form) is used unchanged. -/
theorem pdf_url_derivation (page : PaperPage) (l : String)
    (hTop : page.arxivLinks.head? = some l) (hNoErr : page.fetchError = false) :
    (strContainsSub l "/abs/" = true →
      (get_paper_details page).pdf_url
        = some (String.mk (replaceAll l.data "/abs/".data "/pdf/".data) ++ ".pdf"))
    ∧ (strContainsSub l "/abs/" = false →
      (get_paper_details page).pdf_url = some l) := by
  unfold get_paper_details
  simp only [hNoErr, Bool.false_eq_true, if_false]
  cases hl : page.arxivLinks with
  | nil => rw [hl] at hTop; simp at hTop
  | cons x xs =>
    rw [hl] at hTop
    have hx : x = l := by simpa using hTop
    subst hx
    constructor
    · intro habs
      simp [habs]
    · intro habs
      simp [habs]

theorem pdf_url_derivation_witness :
    (pageAbs.arxivLinks.head? = some "https://arxiv.org/abs/2511.00001"
      ∧ pageAbs.fetchError = false
      ∧ strContainsSub "https://arxiv.org/abs/2511.00001" "/abs/" = true)
    ∧ (get_paper_details pageAbs).pdf_url
        = some "https://arxiv.org/pdf/2511.00001.pdf" := by
  refine ⟨⟨rfl, rfl, by decide⟩, ?_⟩
  have h := (pdf_url_derivation pageAbs "https://arxiv.org/abs/2511.00001" rfl rfl).1
    (by decide)
  rw [h]
  decide

/-- C6: the fallback analyzer rates every category Medium exactly when the
number of fixed keywords occurring in the lowercased title plus abstract
exceeds 2 and Low otherwise; zero matches give Low and three or more give
Medium. -/
theorem fallback_relevance (title abstract cat rating : String)
    (h : (cat, rating) ∈ ((analyze_without_ai title abstract).relevance).getD []) :
    rating = (if fallbackScore title abstract > 2 then "Medium" else "Low")
    ∧ (fallbackScore title abstract = 0 → rating = "Low")
    ∧ (3 ≤ fallbackScore title abstract → rating = "Medium") := by
  unfold analyze_without_ai at h
  dsimp only at h
  rw [Option.getD_some] at h
  obtain ⟨cpair, hc, heq⟩ := List.mem_map.mp h
  have hr : rating = if fallbackScore title abstract > 2 then "Medium" else "Low" := by
    have h2 := congrArg Prod.snd heq
    dsimp only at h2
    exact h2.symm
  refine ⟨hr, ?_, ?_⟩
  · intro h0
    rw [hr, if_neg (by omega)]
  · intro h3
    rw [hr, if_pos (by omega)]

theorem fallback_relevance_witness :
    (("sales", "Medium")
      ∈ ((analyze_without_ai "sales marketing customer support" "").relevance).getD [])
    ∧ "Medium"
      = (if fallbackScore "sales marketing customer support" "" > 2
         then "Medium" else "Low") := by
  have hlist : ((analyze_without_ai "sales marketing customer support" "").relevance).getD []
      = [("sales", "Medium"), ("demand_generation", "Medium"),
         ("customer_success", "Medium"), ("customer_support", "Medium"),
         ("solution_partners", "Medium")] := by decide
  refine ⟨?_, ?_⟩
  · rw [hlist]
    exact List.mem_cons_self _ _
  · exact (fallback_relevance "sales marketing customer support" "" "sales" "Medium"
      (by rw [hlist]; exact List.mem_cons_self _ _)).1

/-- C8: text extraction always returns a string (all exceptions are caught):
the per-page texts joined with a blank-line separator when decoding
succeeds, the library sentinel when the library is missing, and the error
sentinel when decoding raises. -/
theorem extract_text_total (f : PdfFile) :
    extract_text_from_pdf f =
      (match f with
       | .pages ts => String.intercalate "\n\n" ts
       | .noLib => "[PDF text extraction requires PyPDF2 library]"
       | .raiseErr _ => "[Error extracting text from PDF]") := by
  cases f <;> rfl

/-- C9: loading a missing tracker file yields the empty papers map, loading
a malformed one raises, and that error makes the top-level run fatal with
no item processing at all. -/
theorem ledger_load_startup (msg : String) (env : Env) (m : String) (force : Bool)
    (papers : List Paper) :
    tracker_load .absent = .ok []
    ∧ tracker_load (.malformed msg) = .error msg
    ∧ run_agent (.malformed msg) env m force papers = .fatal msg :=
  ⟨rfl, rfl, rfl⟩

/-- C10: is_downloaded holds exactly when the month-slash-id key carries a
complete entry; an item whose entry is failed is not skipped and is
re-attempted, ending the step as processed or failed. -/
theorem is_downloaded_characterization (tr : Tracker) (pid m : String) :
    (is_downloaded tr pid m = true ↔
      ∃ md, getEntry tr.data (trackerKey m pid) = some (.complete md))
    ∧ (∀ (env : Env) (s : RunStats) (p : Paper) (err : String),
        p.paper_id = pid →
        getEntry tr.data (trackerKey m pid) = some (.failed err) →
        (processItem env m false (tr, s) p).2.skipped = s.skipped
        ∧ (processItem env m false (tr, s) p).2.processed
            + (processItem env m false (tr, s) p).2.failed
          = s.processed + s.failed + 1) := by
  constructor
  · unfold is_downloaded
    cases hE : getEntry tr.data (trackerKey m pid) with
    | none => simp
    | some e =>
      cases e with
      | complete md => simp
      | failed r => simp
  · intro env s p err hp hE
    have hd' : is_downloaded tr p.paper_id m = false := by
      unfold is_downloaded
      rw [hp, hE]
    constructor
    · exact processItem_run_skipped env m tr s p hd'
    · rw [processItem_run env m tr s p hd']
      cases outcomeOf env p <;> (dsimp only; omega)

theorem is_downloaded_characterization_witness :
    (paperEx.paper_id = "2511.00001"
      ∧ getEntry trFailed.data (trackerKey "2025-11" "2511.00001")
          = some (.failed "PDF download failed"))
    ∧ (processItem envOk "2025-11" false (trFailed, zeroStats) paperEx).2.skipped
        = zeroStats.skipped :=
  ⟨⟨rfl, by decide⟩,
   ((is_downloaded_characterization trFailed "2511.00001" "2025-11").2 envOk zeroStats
      paperEx "PDF download failed" rfl (by decide)).1⟩
